import Mathlib

/-!
Verification of the HX711 MakeCode driver (src/HX711.ts).

The driver is shallowly embedded as follows.

* The two-wire device interaction is modelled by a state `St` that carries
  the data-line environment `env : Nat → Bool` (the logic level the data
  line DOUT holds at the n-th `digitalReadPin` call; a digital pin read
  yields 0 or 1, encoded as `Bool`), the index `idx` of the next read, a
  chronological `trace` of I/O events, and a millisecond clock `time`
  advanced by `basic.pause` (microsecond busy-waits are recorded in the
  trace but do not tick the millisecond clock).
* The event alphabet `Ev` covers the platform capabilities the source
  uses (clock-pin writes, data-pin reads, delays) plus preemption-control
  events `irqOff`/`irqOn`, so that the presence or absence of a critical
  section in a pulse sequence is expressible; the source code never emits
  the latter two.
* Module-level mutable variables (`GAIN`, `OFFSET`, `SCALE`, `CAL_RATIO`)
  are fields of `St`.  `GAIN` only ever holds 0 (its initial value), 1,
  3 or 2 and is used as a loop bound, so it is carried as a `Nat`; the
  other three are carried as `ℚ` (MakeCode numbers under the arithmetic
  the driver performs on them).
* JavaScript bitwise operators coerce to 32-bit two's complement; they
  are modelled exactly by `jsOr`, `jsAnd`, `jsShl` over `Int`.
* The unbounded polling loops (`wait_ready`, the loop in
  `wait_ready_timeout`) are given explicit fuel and return `Option`;
  `none` models non-termination of the busy wait.  Bounded loops
  (`shiftInSlow`, gain pulses, `wait_ready_retry`, `read_average`) need
  no fuel of their own.
* Pin identities (`PD_SCK`, `DOUT`, re-bound by `begin`) are not carried:
  the driver only ever writes the clock pin and reads the data pin, so
  events name the role, not the pin number.
-/

namespace HX711

/-- I/O event alphabet: clock-pin writes, data-pin reads, delays, and
preemption control (never emitted by this driver). -/
inductive Ev : Type
  | wSck (level : Nat)
  | rDout (level : Bool)
  | waitUs (us : Nat)
  | pauseMs (ms : ℚ)
  | irqOff
  | irqOn
  deriving DecidableEq

/-- Driver state: device environment, I/O log, and the module-level
variables of the source. -/
structure St : Type where
  env : Nat → Bool
  idx : Nat
  trace : List Ev
  time : ℚ
  GAIN : Nat
  OFFSET : ℚ
  SCALE : ℚ
  CAL_RATIO : ℚ

/-- `pins.digitalWritePin(PD_SCK, level)`. -/
def dWriteSck (level : Nat) (s : St) : St :=
  { s with trace := s.trace ++ [Ev.wSck level] }

/-- `pins.digitalReadPin(DOUT)`: yields the next environment level as the
number 0 or 1 and consumes it. -/
def dReadDout (s : St) : Int × St :=
  ((if s.env s.idx then 1 else 0),
   { s with idx := s.idx + 1, trace := s.trace ++ [Ev.rDout (s.env s.idx)] })

/-- `control.waitMicros(us)`. -/
def waitMicros (us : Nat) (s : St) : St :=
  { s with trace := s.trace ++ [Ev.waitUs us] }

/-- `basic.pause(ms)`: logged and advances the millisecond clock. -/
def pause (ms : ℚ) (s : St) : St :=
  { s with trace := s.trace ++ [Ev.pauseMs ms], time := s.time + ms }

/-- `input.runningTime()`. -/
def runningTime (s : St) : ℚ := s.time

/-- JavaScript ToUint32 of an integer. -/
def toUint32 (n : Int) : Nat := (n % (4294967296 : Int)).toNat

/-- Reinterpret a nonnegative 32-bit pattern as a signed 32-bit integer
(the result type of JavaScript bitwise operators). -/
def ofUint32 (n : Nat) : Int :=
  if n % 4294967296 < 2147483648 then ((n % 4294967296 : Nat) : Int)
  else ((n % 4294967296 : Nat) : Int) - 4294967296

/-- JavaScript `a | b`. -/
def jsOr (a b : Int) : Int := ofUint32 (toUint32 a ||| toUint32 b)

/-- JavaScript `a & b`. -/
def jsAnd (a b : Int) : Int := ofUint32 (toUint32 a &&& toUint32 b)

/-- JavaScript `a << k` (shift count taken mod 32). -/
def jsShl (a : Int) (k : Nat) : Int := ofUint32 (toUint32 a <<< (k % 32))

/-- `is_ready()`: the data line reads logic-low. -/
def is_ready (s : St) : Bool × St :=
  let r := dReadDout s
  (r.1 == 0, r.2)

/-- Body of `shiftInSlow`'s `for (i = 0; i < 8; ++i)` loop, recursing on
the remaining iteration count; `i` is the source loop counter. -/
def shiftInAux (bitOrder : Nat) : Nat → Nat → Int → St → Int × St
  | 0, _, value, s => (value, s)
  | rem + 1, i, value, s =>
    let s1 := waitMicros 1 (dWriteSck 1 s)
    let r := dReadDout s1
    let value2 :=
      if bitOrder == 0 then jsOr value (jsShl r.1 i)
      else jsOr value (jsShl r.1 (7 - i))
    let s2 := waitMicros 1 (dWriteSck 0 r.2)
    shiftInAux bitOrder rem (i + 1) value2 s2

/-- `shiftInSlow(bitOrder)`. -/
def shiftInSlow (bitOrder : Nat) (s : St) : Int × St :=
  shiftInAux bitOrder 8 0 0 s

/-- `wait_ready(delay_ms)`: the unbounded `while (!is_ready())` poll,
with fuel bounding the number of polls that may be observed. -/
def wait_ready (delay_ms : ℚ) : Nat → St → Option St
  | 0, _ => none
  | fuel + 1, s =>
    let r := is_ready s
    if r.1 then some r.2
    else wait_ready delay_ms fuel (pause delay_ms r.2)

/-- The `for (i = 0; i < GAIN; i++)` gain-pulse loop inside `read`. -/
def gainPulseLoop : Nat → St → St
  | 0, s => s
  | g + 1, s => gainPulseLoop g (waitMicros 1 (dWriteSck 0 (waitMicros 1 (dWriteSck 1 s))))

/-- `read()`: wait for readiness, shift in three bytes MSB-first
(`shiftInSlow(1)` thrice), issue the gain pulses, sign-extend. -/
def read (fuel : Nat) (s : St) : Option (Int × St) :=
  match wait_ready 0 fuel s with
  | none => none
  | some s0 =>
    let r2 := shiftInSlow 1 s0
    let r1 := shiftInSlow 1 r2.2
    let r0 := shiftInSlow 1 r1.2
    let s4 := gainPulseLoop (St.GAIN r0.2) r0.2
    let filler : Int := if jsAnd r2.1 0x80 ≠ 0 then 0xff else 0x00
    let value := jsOr (jsOr (jsOr (jsShl filler 24) (jsShl r2.1 16)) (jsShl r1.1 8)) r0.1
    some (value, s4)

/-- `set_gain(gain)`: the `switch` on 128/64/32 (anything else falls
through leaving `GAIN` untouched), clock low, then one `read()`. -/
def set_gain (gain : ℚ) (fuel : Nat) (s : St) : Option St :=
  let s1 :=
    if gain = 128 then { s with GAIN := 1 }
    else if gain = 64 then { s with GAIN := 3 }
    else if gain = 32 then { s with GAIN := 2 }
    else s
  let s2 := dWriteSck 0 s1
  match read fuel s2 with
  | none => none
  | some r => some r.2

/-- `begin(pinDOUT, pinPD_SCK)`: pin binding is not carried by the model;
the observable effect is `set_gain(128)`. -/
def begin (fuel : Nat) (s : St) : Option St :=
  set_gain 128 fuel s

/-- `wait_ready_retry(retries, delay_ms)`: the `while (count < retries)`
loop, recursing on the remaining attempt count. -/
def wait_ready_retry : Nat → ℚ → St → Bool × St
  | 0, _, s => (false, s)
  | retries + 1, delay_ms, s =>
    let r := is_ready s
    if r.1 then (true, r.2)
    else wait_ready_retry retries delay_ms (pause delay_ms r.2)

/-- Loop of `wait_ready_timeout`, with fuel for the unbounded poll. -/
def wrtLoop (timeout delay_ms millisStarted : ℚ) : Nat → St → Option (Bool × St)
  | 0, _ => none
  | fuel + 1, s =>
    if runningTime s - millisStarted < timeout then
      let r := is_ready s
      if r.1 then some (true, r.2)
      else wrtLoop timeout delay_ms millisStarted fuel (pause delay_ms r.2)
    else some (false, s)

/-- `wait_ready_timeout(timeout, delay_ms)`. -/
def wait_ready_timeout (timeout delay_ms : ℚ) (fuel : Nat) (s : St) : Option (Bool × St) :=
  wrtLoop timeout delay_ms (runningTime s) fuel s

/-- Loop of `read_average`: `sum += read(); basic.pause(0)`, `times`
iterations. -/
def raLoop (fuel : Nat) : Nat → ℚ → St → Option (ℚ × St)
  | 0, sum, s => some (sum, s)
  | t + 1, sum, s =>
    match read fuel s with
    | none => none
    | some r => raLoop fuel t (sum + (r.1 : ℚ)) (pause 0 r.2)

/-- `read_average(times)`. -/
def read_average (times : Nat) (fuel : Nat) (s : St) : Option (ℚ × St) :=
  match raLoop fuel times 0 s with
  | none => none
  | some r => some (r.1 / (times : ℚ), r.2)

/-- `get_value(times)`: `read_average(times) - OFFSET`. -/
def get_value (times fuel : Nat) (s : St) : Option (ℚ × St) :=
  match read_average times fuel s with
  | none => none
  | some r => some (r.1 - St.OFFSET r.2, r.2)

/-- `calibrate(weight)`: `CAL_RATIO = weight / (get_value(10) / SCALE)`. -/
def calibrate (weight : ℚ) (fuel : Nat) (s : St) : Option St :=
  match get_value 10 fuel s with
  | none => none
  | some r => some { r.2 with CAL_RATIO := weight / (r.1 / St.SCALE r.2) }

/-- `get_units(times)`: `(get_value(times) * CAL_RATIO) / SCALE`. -/
def get_units (times fuel : Nat) (s : St) : Option (ℚ × St) :=
  match get_value times fuel s with
  | none => none
  | some r => some ((r.1 * St.CAL_RATIO r.2) / St.SCALE r.2, r.2)

/-- `set_offset(offset)`. -/
def set_offset (offset : ℚ) (s : St) : St := { s with OFFSET := offset }

/-- `get_offset()`. -/
def get_offset (s : St) : ℚ := St.OFFSET s

/-- `set_scale(scale)`. -/
def set_scale (scale : ℚ) (s : St) : St := { s with SCALE := scale }

/-- `get_scale()`. -/
def get_scale (s : St) : ℚ := St.SCALE s

/-- `tare(times)`: `set_offset(read_average(times))`. -/
def tare (times fuel : Nat) (s : St) : Option St :=
  match read_average times fuel s with
  | none => none
  | some r => some (set_offset r.1 r.2)

/-- `power_up()`. -/
def power_up (s : St) : St := dWriteSck 0 s

/-- `power_down()`. -/
def power_down (s : St) : St := dWriteSck 1 (dWriteSck 0 s)

/-- The module-initialization state (lines 9-14 of the source):
`GAIN = 0.0`, `OFFSET = 0`, `SCALE = 1`, `CAL_RATIO = 1.0`, nothing yet
on the wire. -/
def initSt (env : Nat → Bool) : St :=
  { env := env, idx := 0, trace := [], time := 0,
    GAIN := 0, OFFSET := 0, SCALE := 1, CAL_RATIO := 1 }

/-! ### Observers used to state the specification claims -/

/-- The numeric level (0 or 1) the data line holds at read index `k`. -/
def bitAt (e : Nat → Bool) (k : Nat) : Nat := if e k then 1 else 0

/-- The byte assembled from 8 consecutive data-line samples, first sample
into the most significant bit. -/
def byteVal (e : Nat → Bool) (k : Nat) : Nat :=
  (Finset.range 8).sum fun j => bitAt e (k + j) * 2 ^ (7 - j)

/-- The 24-bit word assembled from 24 consecutive samples, first sample
into the most significant bit. -/
def raw24 (e : Nat → Bool) (k : Nat) : Nat :=
  (Finset.range 24).sum fun j => bitAt e (k + j) * 2 ^ (23 - j)

/-- Two's-complement signed interpretation of a 24-bit word. -/
def decode24 (n : Nat) : Int :=
  if n < 8388608 then (n : Int) else (n : Int) - 16777216

/-- Events of one data-bit clock cycle: raise clock, hold, sample, lower
clock, hold. -/
def bitGroup (b : Bool) : List Ev :=
  [Ev.wSck 1, Ev.waitUs 1, Ev.rDout b, Ev.wSck 0, Ev.waitUs 1]

/-- The `n` data-line levels starting at read index `k`. -/
def sampled (e : Nat → Bool) (k n : Nat) : List Bool :=
  (List.range n).map fun j => e (k + j)

/-- The event trace of shifting in the given bits. -/
def shiftTrace (bs : List Bool) : List Ev := (bs.map bitGroup).flatten

/-- Events of one trailing gain pulse: raise clock, hold, lower clock,
hold. -/
def pulseGroup : List Ev := [Ev.wSck 1, Ev.waitUs 1, Ev.wSck 0, Ev.waitUs 1]

/-- The event trace of `g` trailing gain pulses. -/
def gainPulses (g : Nat) : List Ev := (List.replicate g pulseGroup).flatten

/-- Readiness-polling events: data-line reads and millisecond pauses. -/
def isPoll : Ev → Bool
  | Ev.rDout _ => true
  | Ev.pauseMs _ => true
  | _ => false

/-- Preemption-control events. -/
def isIrq : Ev → Bool
  | Ev.irqOff => true
  | Ev.irqOn => true
  | _ => false

/-- The clock level written by an event, if it is a clock write. -/
def sckOf : Ev → Option Nat
  | Ev.wSck l => some l
  | _ => none

/-- The last clock level written in a trace. -/
def lastSck (t : List Ev) : Option Nat := (t.filterMap sckOf).getLast?

/-- Environment with the data line always low (device always ready, all
data bits 0). -/
def envAllLow : Nat → Bool := fun _ => false

/-- Environment that answers the initial readiness poll with low, then
serves the 24 bits of the three given bytes most-significant-bit first. -/
def envOfBytes (b2 b1 b0 : Nat) : Nat → Bool := fun n =>
  if n = 0 ∨ 25 ≤ n then false
  else Nat.testBit (b2 * 65536 + b1 * 256 + b0) (24 - n)

/-- The list of values produced by `t` consecutive `read()` calls, with
the same inter-sample pause as `read_average`'s loop. -/
def readSeq (fuel : Nat) : Nat → St → Option (List Int × St)
  | 0, s => some ([], s)
  | t + 1, s =>
    match read fuel s with
    | none => none
    | some r =>
      match readSeq fuel t (pause 0 r.2) with
      | none => none
      | some q => some (r.1 :: q.1, q.2)

/-! ### Arithmetic of the JavaScript 32-bit bitwise operators -/

lemma ofUint32_small {n : Nat} (h : n < 2147483648) : ofUint32 n = (n : Int) := by
  unfold ofUint32
  rw [Nat.mod_eq_of_lt (lt_trans h (by norm_num))]
  simp [h]

lemma toUint32_natCast {n : Nat} (h : n < 4294967296) : toUint32 ((n : Nat) : Int) = n := by
  unfold toUint32
  rw [Int.emod_eq_of_lt (by positivity) (by exact_mod_cast h)]
  simp

lemma toUint32_ofUint32 {n : Nat} (h : n < 4294967296) : toUint32 (ofUint32 n) = n := by
  unfold ofUint32 toUint32
  rw [Nat.mod_eq_of_lt h]
  by_cases h2 : n < 2147483648
  · rw [if_pos h2, Int.emod_eq_of_lt (by positivity) (by exact_mod_cast h)]
    simp
  · rw [if_neg h2]
    omega

lemma jsShl_natCast {m p : Nat} (hp : p < 32) (hm : m < 4294967296) :
    jsShl ((m : Nat) : Int) p = ofUint32 (m * 2 ^ p) := by
  unfold jsShl
  rw [toUint32_natCast hm, Nat.mod_eq_of_lt hp, Nat.shiftLeft_eq]

lemma jsOr_ofUint32 {N M p : Nat} (hp : p ≤ 31) (hN : N < 4294967296)
    (hNp : N % 2 ^ p = 0) (hM : M < 2 ^ p) :
    jsOr (ofUint32 N) (ofUint32 M) = ofUint32 (N + M) := by
  have hpow : (2 : Nat) ^ p ≤ 2 ^ 31 := Nat.pow_le_pow_right (by norm_num) hp
  have hM32 : M < 4294967296 := by
    have : M < 2 ^ 31 := lt_of_lt_of_le hM hpow
    omega
  unfold jsOr
  rw [toUint32_ofUint32 hN, toUint32_ofUint32 hM32]
  obtain ⟨q, hq⟩ := Nat.dvd_of_mod_eq_zero hNp
  subst hq
  rw [← Nat.mul_add_lt_is_or hM q]

lemma jsShl_zero (p : Nat) : jsShl (0 : Int) p = ofUint32 0 := by
  simp [jsShl, toUint32]

lemma jsShl_one {p : Nat} (hp : p ≤ 7) : jsShl (1 : Int) p = ofUint32 (2 ^ p) := by
  have h1 : toUint32 (1 : Int) = 1 := by decide
  unfold jsShl
  rw [h1, Nat.mod_eq_of_lt (by omega), Nat.shiftLeft_eq, one_mul]

lemma jsOr_zero_right {V : Nat} (hV : V < 2147483648) :
    jsOr ((V : Nat) : Int) (ofUint32 0) = ((V : Nat) : Int) := by
  rw [show ((V : Nat) : Int) = ofUint32 V from (ofUint32_small hV).symm]
  rw [@jsOr_ofUint32 V 0 0 (by norm_num) (by omega) (by omega) (by norm_num)]
  simp

lemma jsOr_nat_pow {V p : Nat} (hp : p ≤ 7) (hV : V < 256) (hVp : V % 2 ^ (p + 1) = 0) :
    jsOr ((V : Nat) : Int) (ofUint32 (2 ^ p)) = ((V + 2 ^ p : Nat) : Int) := by
  have hpow : (2 : Nat) ^ p < 2 ^ (p + 1) := Nat.pow_lt_pow_succ (by norm_num)
  have hp128 : (2 : Nat) ^ p ≤ 128 := by
    calc (2 : Nat) ^ p ≤ 2 ^ 7 := Nat.pow_le_pow_right (by norm_num) hp
    _ = 128 := by norm_num
  have hV31 : V < 2147483648 := by omega
  rw [show ((V : Nat) : Int) = ofUint32 V from (ofUint32_small hV31).symm]
  rw [jsOr_ofUint32 (by omega) (by omega) hVp hpow]
  exact ofUint32_small (by omega)

lemma jsOr_bit_step {V : Nat} {b : Bool} {p : Nat} (hp : p ≤ 7) (hV : V < 256)
    (hVp : V % 2 ^ (p + 1) = 0) :
    jsOr ((V : Nat) : Int) (jsShl (if b then (1 : Int) else 0) p) =
      ((V + (if b then 1 else 0) * 2 ^ p : Nat) : Int) := by
  cases b
  · rw [if_neg (by simp), if_neg (by simp), jsShl_zero,
      jsOr_zero_right (by omega : V < 2147483648)]
    simp
  · rw [if_pos rfl, if_pos rfl, jsShl_one hp, jsOr_nat_pow hp hV hVp, one_mul]

/-! ### List-shape helpers -/

lemma sampled_succ (e : Nat → Bool) (k n : Nat) :
    sampled e k (n + 1) = e k :: sampled e (k + 1) n := by
  have hf : ((fun j => e (k + j)) ∘ Nat.succ) = fun j => e (k + 1 + j) := by
    funext j
    show e (k + Nat.succ j) = e (k + 1 + j)
    congr 1
    omega
  unfold sampled
  rw [List.range_succ_eq_map, List.map_cons, List.map_map, hf, Nat.add_zero]

lemma sampled_append (e : Nat → Bool) (k m n : Nat) :
    sampled e k (m + n) = sampled e k m ++ sampled e (k + m) n := by
  have hf : ((fun j => e (k + j)) ∘ fun x => m + x) = fun j => e (k + m + j) := by
    funext j
    show e (k + (m + j)) = e (k + m + j)
    congr 1
    omega
  unfold sampled
  rw [List.range_add, List.map_append, List.map_map, hf]

lemma shiftTrace_cons (b : Bool) (bs : List Bool) :
    shiftTrace (b :: bs) = bitGroup b ++ shiftTrace bs := rfl

lemma shiftTrace_append (xs ys : List Bool) :
    shiftTrace (xs ++ ys) = shiftTrace xs ++ shiftTrace ys := by
  unfold shiftTrace
  rw [List.map_append, List.flatten_append]

lemma gainPulses_succ (g : Nat) : gainPulses (g + 1) = pulseGroup ++ gainPulses g := by
  unfold gainPulses
  rw [List.replicate_succ]
  rfl

/-! ### Characterization of the shift-in loop -/

lemma shiftInAux_env (b rem : Nat) :
    ∀ i v s, (shiftInAux b rem i v s).2.env = s.env := by
  induction rem with
  | zero => intro i v s; rfl
  | succ rem ih =>
    intro i v s
    simp only [shiftInAux]
    rw [ih]
    rfl

lemma shiftInAux_idx (b rem : Nat) :
    ∀ i v s, (shiftInAux b rem i v s).2.idx = s.idx + rem := by
  induction rem with
  | zero => intro i v s; rfl
  | succ rem ih =>
    intro i v s
    simp only [shiftInAux]
    rw [ih]
    simp only [waitMicros, dWriteSck, dReadDout]
    omega

lemma shiftInAux_time (b rem : Nat) :
    ∀ i v s, (shiftInAux b rem i v s).2.time = s.time := by
  induction rem with
  | zero => intro i v s; rfl
  | succ rem ih =>
    intro i v s
    simp only [shiftInAux]
    rw [ih]
    rfl

lemma shiftInAux_gain (b rem : Nat) :
    ∀ i v s, (shiftInAux b rem i v s).2.GAIN = s.GAIN := by
  induction rem with
  | zero => intro i v s; rfl
  | succ rem ih =>
    intro i v s
    simp only [shiftInAux]
    rw [ih]
    rfl

lemma shiftInAux_offset (b rem : Nat) :
    ∀ i v s, (shiftInAux b rem i v s).2.OFFSET = s.OFFSET := by
  induction rem with
  | zero => intro i v s; rfl
  | succ rem ih =>
    intro i v s
    simp only [shiftInAux]
    rw [ih]
    rfl

lemma shiftInAux_scale (b rem : Nat) :
    ∀ i v s, (shiftInAux b rem i v s).2.SCALE = s.SCALE := by
  induction rem with
  | zero => intro i v s; rfl
  | succ rem ih =>
    intro i v s
    simp only [shiftInAux]
    rw [ih]
    rfl

lemma shiftInAux_ratio (b rem : Nat) :
    ∀ i v s, St.CAL_RATIO (shiftInAux b rem i v s).2 = St.CAL_RATIO s := by
  induction rem with
  | zero => intro i v s; rfl
  | succ rem ih =>
    intro i v s
    simp only [shiftInAux]
    rw [ih]
    rfl

lemma shiftInAux_trace (b rem : Nat) :
    ∀ i v s, (shiftInAux b rem i v s).2.trace =
      s.trace ++ shiftTrace (sampled s.env s.idx rem) := by
  induction rem with
  | zero => intro i v s; simp [shiftInAux, sampled, shiftTrace]
  | succ rem ih =>
    intro i v s
    simp only [shiftInAux]
    rw [ih]
    simp only [waitMicros, dWriteSck, dReadDout]
    rw [sampled_succ, shiftTrace_cons]
    simp [bitGroup, List.append_assoc]

lemma shiftInAux_val (rem : Nat) :
    ∀ i V s, i + rem = 8 → V < 256 → V % 2 ^ (8 - i) = 0 →
    (shiftInAux 1 rem i ((V : Nat) : Int) s).1 =
      ((V + (Finset.range rem).sum (fun j => bitAt s.env (s.idx + j) * 2 ^ (7 - (i + j))) : Nat) : Int) := by
  induction rem with
  | zero => intro i V s h8 hV hVp; simp [shiftInAux]
  | succ rem ih =>
    intro i V s h8 hV hVp
    have hi7 : i ≤ 7 := by omega
    have h87 : (7 - i) + 1 = 8 - i := by omega
    have hVp7 : V % 2 ^ ((7 - i) + 1) = 0 := by rw [h87]; exact hVp
    simp only [shiftInAux, waitMicros, dWriteSck, dReadDout]
    rw [if_neg (by decide)]
    rw [jsOr_bit_step (by omega) hV hVp7]
    have hA1 : 1 ≤ 2 ^ (7 - i) := Nat.one_le_two_pow
    have hdvdV : 2 ^ (8 - i) ∣ V := Nat.dvd_of_mod_eq_zero hVp
    have hdvd256 : 2 ^ (8 - i) ∣ 256 := by
      rw [show (256 : Nat) = 2 ^ 8 from by norm_num]
      exact pow_dvd_pow 2 (by omega)
    have hstep : 2 ^ (8 - i) ≤ 256 - V := Nat.le_of_dvd (by omega) (Nat.dvd_sub' hdvd256 hdvdV)
    have hsplit : 2 ^ (8 - i) = 2 ^ (7 - i) * 2 := by
      rw [← h87, pow_succ]
    have hble : (if s.env s.idx then 1 else 0) * 2 ^ (7 - i) ≤ 2 ^ (7 - i) := by
      split <;> omega
    have hV2 : V + (if s.env s.idx then 1 else 0) * 2 ^ (7 - i) < 256 := by
      rw [hsplit] at hstep
      omega
    have hVp2 : (V + (if s.env s.idx then 1 else 0) * 2 ^ (7 - i)) % 2 ^ (8 - (i + 1)) = 0 := by
      have h7i : 8 - (i + 1) = 7 - i := by omega
      rw [h7i]
      have hd1 : 2 ^ (7 - i) ∣ V :=
        dvd_trans (pow_dvd_pow 2 (by omega : 7 - i ≤ 8 - i)) hdvdV
      have hd2 : 2 ^ (7 - i) ∣ (if s.env s.idx then 1 else 0) * 2 ^ (7 - i) :=
        dvd_mul_left _ _
      exact Nat.mod_eq_zero_of_dvd (dvd_add hd1 hd2)
    rw [ih (i + 1) _ _ (by omega) hV2 hVp2]
    rw [Finset.sum_range_succ']
    have hsum : ((Finset.range rem).sum fun j => bitAt s.env (s.idx + (j + 1)) * 2 ^ (7 - (i + (j + 1))))
        = (Finset.range rem).sum fun j => bitAt s.env (s.idx + 1 + j) * 2 ^ (7 - (i + 1 + j)) := by
      refine Finset.sum_congr rfl fun j hj => ?_
      have e1 : s.idx + (j + 1) = s.idx + 1 + j := by omega
      have e2 : 7 - (i + (j + 1)) = 7 - (i + 1 + j) := by omega
      rw [e1, e2]
    rw [hsum]
    simp only [Nat.add_zero, bitAt]
    push_cast
    ring

lemma shiftInSlow_fst (s : St) :
    (shiftInSlow 1 s).1 = ((byteVal s.env s.idx : Nat) : Int) := by
  have h := shiftInAux_val 8 0 0 s (by norm_num) (by norm_num) (by norm_num)
  unfold shiftInSlow
  rw [show ((0 : Nat) : Int) = (0 : Int) from rfl] at h
  rw [h]
  simp [byteVal]

lemma shiftInSlow_env (b : Nat) (s : St) : (shiftInSlow b s).2.env = s.env :=
  shiftInAux_env b 8 0 0 s

lemma shiftInSlow_idx (b : Nat) (s : St) : (shiftInSlow b s).2.idx = s.idx + 8 :=
  shiftInAux_idx b 8 0 0 s

lemma shiftInSlow_trace (b : Nat) (s : St) :
    (shiftInSlow b s).2.trace = s.trace ++ shiftTrace (sampled s.env s.idx 8) :=
  shiftInAux_trace b 8 0 0 s

lemma shiftInSlow_time (b : Nat) (s : St) : (shiftInSlow b s).2.time = s.time :=
  shiftInAux_time b 8 0 0 s

lemma shiftInSlow_gain (b : Nat) (s : St) : (shiftInSlow b s).2.GAIN = s.GAIN :=
  shiftInAux_gain b 8 0 0 s

lemma shiftInSlow_offset (b : Nat) (s : St) : (shiftInSlow b s).2.OFFSET = s.OFFSET :=
  shiftInAux_offset b 8 0 0 s

lemma shiftInSlow_scale (b : Nat) (s : St) : (shiftInSlow b s).2.SCALE = s.SCALE :=
  shiftInAux_scale b 8 0 0 s

lemma shiftInSlow_ratio (b : Nat) (s : St) :
    St.CAL_RATIO (shiftInSlow b s).2 = St.CAL_RATIO s :=
  shiftInAux_ratio b 8 0 0 s

lemma byteVal_lt (e : Nat → Bool) (k : Nat) : byteVal e k < 256 := by
  have h : byteVal e k ≤ (Finset.range 8).sum fun j => 2 ^ (7 - j) := by
    refine Finset.sum_le_sum fun j hj => ?_
    have hb : bitAt e (k + j) ≤ 1 := by unfold bitAt; split <;> norm_num
    calc bitAt e (k + j) * 2 ^ (7 - j) ≤ 1 * 2 ^ (7 - j) := Nat.mul_le_mul_right _ hb
    _ = 2 ^ (7 - j) := one_mul _
  have h2 : ((Finset.range 8).sum fun j => 2 ^ (7 - j)) = 255 := by decide
  omega

lemma sum_range_add_nat (f : Nat → Nat) (m n : Nat) :
    (Finset.range (m + n)).sum f
      = (Finset.range m).sum f + (Finset.range n).sum fun j => f (m + j) := by
  induction n with
  | zero => simp
  | succ n ih =>
    rw [show m + (n + 1) = (m + n) + 1 from rfl, Finset.sum_range_succ, ih,
      Finset.sum_range_succ]
    ring

set_option maxHeartbeats 1000000 in
lemma raw24_bytes (e : Nat → Bool) (k : Nat) :
    raw24 e k = byteVal e k * 65536 + byteVal e (k + 8) * 256 + byteVal e (k + 16) := by
  have hsplit : raw24 e k
      = ((Finset.range 8).sum fun j => bitAt e (k + j) * 2 ^ (23 - j))
        + (((Finset.range 8).sum fun j => bitAt e (k + (8 + j)) * 2 ^ (23 - (8 + j)))
        + ((Finset.range 8).sum fun j => bitAt e (k + (8 + (8 + j))) * 2 ^ (23 - (8 + (8 + j))))) := by
    unfold raw24
    rw [show (24 : Nat) = 8 + (8 + 8) from rfl, sum_range_add_nat, sum_range_add_nat]
  rw [hsplit]
  unfold byteVal
  rw [Finset.sum_mul, Finset.sum_mul]
  have h1 : ∀ j ∈ Finset.range 8,
      bitAt e (k + j) * 2 ^ (23 - j) = bitAt e (k + j) * 2 ^ (7 - j) * 65536 := by
    intro j hj
    have hj8 : j < 8 := Finset.mem_range.1 hj
    have he : 23 - j = (7 - j) + 16 := by omega
    rw [he, pow_add]
    norm_num
    ring
  have h2 : ∀ j ∈ Finset.range 8,
      bitAt e (k + (8 + j)) * 2 ^ (23 - (8 + j)) = bitAt e (k + 8 + j) * 2 ^ (7 - j) * 256 := by
    intro j hj
    have hj8 : j < 8 := Finset.mem_range.1 hj
    have he : 23 - (8 + j) = (7 - j) + 8 := by omega
    have hk : k + (8 + j) = k + 8 + j := by omega
    rw [hk, he, pow_add]
    norm_num
    ring
  have h3 : ∀ j ∈ Finset.range 8,
      bitAt e (k + (8 + (8 + j))) * 2 ^ (23 - (8 + (8 + j))) = bitAt e (k + 16 + j) * 2 ^ (7 - j) := by
    intro j hj
    have hj8 : j < 8 := Finset.mem_range.1 hj
    have he : 23 - (8 + (8 + j)) = 7 - j := by omega
    have hk : k + (8 + (8 + j)) = k + 16 + j := by omega
    rw [hk, he]
  rw [Finset.sum_congr rfl h1, Finset.sum_congr rfl h2, Finset.sum_congr rfl h3]
  ring

lemma raw24_lt (e : Nat → Bool) (k : Nat) : raw24 e k < 16777216 := by
  have h2 := byteVal_lt e k
  have h1 := byteVal_lt e (k + 8)
  have h0 := byteVal_lt e (k + 16)
  rw [raw24_bytes]
  omega

lemma jsAnd_byte {n2 : Nat} (h2 : n2 < 256) :
    jsAnd ((n2 : Nat) : Int) 128 = if 128 ≤ n2 then (128 : Int) else 0 := by
  unfold jsAnd
  rw [toUint32_natCast (by omega), show toUint32 (128 : Int) = 128 from by decide]
  rw [show (128 : Nat) = 2 ^ 7 from by norm_num, Nat.and_two_pow]
  by_cases hc : 2 ^ 7 ≤ n2
  · rw [if_pos hc]
    have ht : n2.testBit 7 = true := by
      rw [Nat.testBit_to_div_mod]
      rw [show (2 : Nat) ^ 7 = 128 from by norm_num]
      simp only [decide_eq_true_eq]
      omega
    rw [ht]
    decide
  · rw [if_neg hc]
    have ht : n2.testBit 7 = false := Nat.testBit_lt_two_pow (by omega)
    rw [ht]
    decide

lemma combine24 {n2 n1 n0 : Nat} (h2 : n2 < 256) (h1 : n1 < 256) (h0 : n0 < 256) :
    jsOr (jsOr (jsOr (jsShl (if jsAnd ((n2 : Nat) : Int) 128 ≠ 0 then (255 : Int) else 0) 24)
        (jsShl ((n2 : Nat) : Int) 16)) (jsShl ((n1 : Nat) : Int) 8)) ((n0 : Nat) : Int)
      = decode24 (n2 * 65536 + n1 * 256 + n0) := by
  have hs2 : jsShl ((n2 : Nat) : Int) 16 = ofUint32 (n2 * 65536) := by
    rw [jsShl_natCast (by norm_num) (by omega)]
    norm_num
  have hs1 : jsShl ((n1 : Nat) : Int) 8 = ofUint32 (n1 * 256) := by
    rw [jsShl_natCast (by norm_num) (by omega)]
    norm_num
  have hs0 : ((n0 : Nat) : Int) = ofUint32 n0 := (ofUint32_small (by omega)).symm
  rw [jsAnd_byte h2]
  by_cases hc : 128 ≤ n2
  · rw [if_pos hc, if_pos (by norm_num : (128 : Int) ≠ 0)]
    rw [show jsShl (255 : Int) 24 = ofUint32 4278190080 from by decide]
    rw [hs2, hs1, hs0]
    rw [jsOr_ofUint32 (by norm_num : 24 ≤ 31) (by norm_num)
      (by decide : (4278190080 : Nat) % 2 ^ 24 = 0)
      (by rw [show (2 : Nat) ^ 24 = 16777216 from by norm_num]; omega)]
    rw [jsOr_ofUint32 (by norm_num : 16 ≤ 31)
      (by omega)
      (by rw [show (2 : Nat) ^ 16 = 65536 from by norm_num]; omega)
      (by rw [show (2 : Nat) ^ 16 = 65536 from by norm_num]; omega)]
    rw [jsOr_ofUint32 (by norm_num : 8 ≤ 31)
      (by omega)
      (by rw [show (2 : Nat) ^ 8 = 256 from by norm_num]; omega)
      (by rw [show (2 : Nat) ^ 8 = 256 from by norm_num]; omega)]
    unfold ofUint32 decode24
    rw [Nat.mod_eq_of_lt (by omega)]
    rw [if_neg (by omega), if_neg (by omega)]
    push_cast
    ring
  · rw [if_neg hc, if_neg (by norm_num : ¬ (0 : Int) ≠ 0)]
    rw [jsShl_zero]
    rw [hs2, hs1, hs0]
    rw [jsOr_ofUint32 (by norm_num : 24 ≤ 31) (by norm_num)
      (by norm_num)
      (by rw [show (2 : Nat) ^ 24 = 16777216 from by norm_num]; omega)]
    rw [jsOr_ofUint32 (by norm_num : 16 ≤ 31)
      (by omega)
      (by rw [show (2 : Nat) ^ 16 = 65536 from by norm_num]; omega)
      (by rw [show (2 : Nat) ^ 16 = 65536 from by norm_num]; omega)]
    rw [jsOr_ofUint32 (by norm_num : 8 ≤ 31)
      (by omega)
      (by rw [show (2 : Nat) ^ 8 = 256 from by norm_num]; omega)
      (by rw [show (2 : Nat) ^ 8 = 256 from by norm_num]; omega)]
    unfold ofUint32 decode24
    rw [Nat.mod_eq_of_lt (by omega)]
    rw [if_pos (by omega), if_pos (by omega)]
    push_cast
    ring

/-! ### Characterization of the readiness wait and the gain pulses -/

lemma wait_ready_char (d : ℚ) (fuel : Nat) :
    ∀ s s1, wait_ready d fuel s = some s1 →
      s1.env = s.env ∧ s1.GAIN = s.GAIN ∧ s1.OFFSET = s.OFFSET ∧ s1.SCALE = s.SCALE ∧
      St.CAL_RATIO s1 = St.CAL_RATIO s ∧
      ∃ w, (∀ e ∈ w, isPoll e = true) ∧ s1.trace = s.trace ++ w := by
  induction fuel with
  | zero => intro s s1 h; exact absurd h (by simp [wait_ready])
  | succ fuel ih =>
    intro s s1 h
    unfold wait_ready at h
    simp only [is_ready, dReadDout] at h
    cases hb : s.env s.idx
    · rw [hb] at h
      rw [if_pos (by decide)] at h
      have hs := (Option.some.inj h).symm
      subst hs
      refine ⟨rfl, rfl, rfl, rfl, rfl, [Ev.rDout false], ?_, rfl⟩
      intro e he
      simp only [List.mem_singleton] at he
      subst he
      rfl
    · rw [hb] at h
      rw [if_neg (by decide)] at h
      obtain ⟨h1, h2, h3, h4, h5, w, hw, htr⟩ := ih _ _ h
      refine ⟨h1, h2, h3, h4, h5, Ev.rDout true :: Ev.pauseMs d :: w, ?_, ?_⟩
      · intro e he
        simp only [List.mem_cons] at he
        rcases he with rfl | rfl | he
        · rfl
        · rfl
        · exact hw e he
      · rw [htr]
        simp [pause, List.append_assoc]

lemma wait_ready_ready {d : ℚ} {fuel : Nat} {s : St} (hf : 1 ≤ fuel)
    (h : s.env s.idx = false) :
    wait_ready d fuel s
      = some { s with idx := s.idx + 1, trace := s.trace ++ [Ev.rDout false] } := by
  cases fuel with
  | zero => omega
  | succ fuel =>
    unfold wait_ready
    simp only [is_ready, dReadDout, h]
    rw [if_pos (by decide)]

lemma gainPulseLoop_trace (g : Nat) :
    ∀ s, (gainPulseLoop g s).trace = s.trace ++ gainPulses g := by
  induction g with
  | zero => intro s; simp [gainPulseLoop, gainPulses]
  | succ g ih =>
    intro s
    show (gainPulseLoop g _).trace = _
    rw [ih]
    simp [waitMicros, dWriteSck, gainPulses_succ, pulseGroup, List.append_assoc]

lemma gainPulseLoop_env (g : Nat) : ∀ s, (gainPulseLoop g s).env = s.env := by
  induction g with
  | zero => intro s; rfl
  | succ g ih => intro s; show (gainPulseLoop g _).env = _; rw [ih]; rfl

lemma gainPulseLoop_idx (g : Nat) : ∀ s, (gainPulseLoop g s).idx = s.idx := by
  induction g with
  | zero => intro s; rfl
  | succ g ih => intro s; show (gainPulseLoop g _).idx = _; rw [ih]; rfl

lemma gainPulseLoop_time (g : Nat) : ∀ s, (gainPulseLoop g s).time = s.time := by
  induction g with
  | zero => intro s; rfl
  | succ g ih => intro s; show (gainPulseLoop g _).time = _; rw [ih]; rfl

lemma gainPulseLoop_gain (g : Nat) : ∀ s, (gainPulseLoop g s).GAIN = s.GAIN := by
  induction g with
  | zero => intro s; rfl
  | succ g ih => intro s; show (gainPulseLoop g _).GAIN = _; rw [ih]; rfl

lemma gainPulseLoop_offset (g : Nat) : ∀ s, (gainPulseLoop g s).OFFSET = s.OFFSET := by
  induction g with
  | zero => intro s; rfl
  | succ g ih => intro s; show (gainPulseLoop g _).OFFSET = _; rw [ih]; rfl

lemma gainPulseLoop_scale (g : Nat) : ∀ s, (gainPulseLoop g s).SCALE = s.SCALE := by
  induction g with
  | zero => intro s; rfl
  | succ g ih => intro s; show (gainPulseLoop g _).SCALE = _; rw [ih]; rfl

lemma gainPulseLoop_ratio (g : Nat) :
    ∀ s, St.CAL_RATIO (gainPulseLoop g s) = St.CAL_RATIO s := by
  induction g with
  | zero => intro s; rfl
  | succ g ih => intro s; show St.CAL_RATIO (gainPulseLoop g _) = _; rw [ih]; rfl

/-! ### Characterization of `read` -/

lemma sampled_split24 (e : Nat → Bool) (k : Nat) :
    sampled e k 24
      = sampled e k 8 ++ (sampled e (k + 8) 8 ++ sampled e (k + 8 + 8) 8) := by
  rw [show (24 : Nat) = 8 + (8 + 8) from rfl, sampled_append, sampled_append]

lemma read_char {fuel : Nat} {s : St} {p : Int × St} (h : read fuel s = some p) :
    ∃ s0, wait_ready 0 fuel s = some s0 ∧
      p.1 = decode24 (raw24 s0.env s0.idx) ∧
      p.2.env = s0.env ∧
      p.2.idx = s0.idx + 24 ∧
      p.2.trace = s0.trace ++ shiftTrace (sampled s0.env s0.idx 24) ++ gainPulses s0.GAIN ∧
      p.2.time = s0.time ∧
      p.2.GAIN = s0.GAIN ∧
      p.2.OFFSET = s0.OFFSET ∧
      p.2.SCALE = s0.SCALE ∧
      St.CAL_RATIO p.2 = St.CAL_RATIO s0 := by
  unfold read at h
  cases hw : wait_ready 0 fuel s with
  | none => rw [hw] at h; exact absurd h (by simp)
  | some s0 =>
    rw [hw] at h
    simp only [] at h
    have hp := (Option.some.inj h).symm
    refine ⟨s0, rfl, ?_⟩
    subst hp
    have hb2 := shiftInSlow_fst s0
    have hb1 := shiftInSlow_fst (shiftInSlow 1 s0).2
    have hb0 := shiftInSlow_fst (shiftInSlow 1 (shiftInSlow 1 s0).2).2
    rw [shiftInSlow_env, shiftInSlow_idx] at hb1
    rw [shiftInSlow_env, shiftInSlow_env, shiftInSlow_idx, shiftInSlow_idx] at hb0
    constructor
    · -- the value
      show jsOr _ _ = _
      rw [hb2, hb1, hb0]
      rw [combine24 (byteVal_lt s0.env s0.idx) (byteVal_lt s0.env (s0.idx + 8))
        (byteVal_lt s0.env (s0.idx + 8 + 8))]
      rw [show s0.idx + 8 + 8 = s0.idx + 16 from by omega]
      rw [← raw24_bytes]
    · -- the state
      refine ⟨?_, ?_, ?_, ?_, ?_, ?_, ?_, ?_⟩
      · simp only [gainPulseLoop_env, shiftInSlow_env]
      · simp only [gainPulseLoop_idx, shiftInSlow_idx]
      · rw [gainPulseLoop_trace]
        simp only [shiftInSlow_gain, shiftInSlow_trace, shiftInSlow_env, shiftInSlow_idx]
        rw [sampled_split24, shiftTrace_append, shiftTrace_append]
        simp [List.append_assoc]
      · simp only [gainPulseLoop_time, shiftInSlow_time]
      · simp only [gainPulseLoop_gain, shiftInSlow_gain]
      · simp only [gainPulseLoop_offset, shiftInSlow_offset]
      · simp only [gainPulseLoop_scale, shiftInSlow_scale]
      · simp only [gainPulseLoop_ratio, shiftInSlow_ratio]

/-- Field preservation of `read` relative to the entry state, together
with the shape of the events it appends. -/
lemma read_fields {fuel : Nat} {s : St} {p : Int × St} (h : read fuel s = some p) :
    p.2.env = s.env ∧ p.2.GAIN = s.GAIN ∧ p.2.OFFSET = s.OFFSET ∧ p.2.SCALE = s.SCALE ∧
    St.CAL_RATIO p.2 = St.CAL_RATIO s ∧
    ∃ w bs, (∀ e ∈ w, isPoll e = true) ∧ bs.length = 24 ∧
      p.2.trace = s.trace ++ (w ++ (shiftTrace bs ++ gainPulses s.GAIN)) := by
  obtain ⟨s0, hw, hval, henv, hidx, htr, htime, hg, hoff, hsc, hrat⟩ := read_char h
  obtain ⟨e1, g1, o1, sc1, r1, w, hwpoll, hwtr⟩ := wait_ready_char 0 fuel s s0 hw
  refine ⟨by rw [henv, e1], by rw [hg, g1], by rw [hoff, o1], by rw [hsc, sc1],
    by rw [hrat, r1], w, sampled s0.env s0.idx 24, hwpoll, by simp [sampled], ?_⟩
  rw [htr, hwtr, g1]
  simp [List.append_assoc]

/-! ### Claim theorems -/

/-- C1: for every sequence of 24 sampled data-line bits, `read()` assembles
three bytes most-significant-byte first, each byte most-significant-bit
first, and returns the two's-complement signed interpretation of the
24-bit word (sign-extension to 32 bits); in particular bytes
0x7F,0xFF,0xFF decode to 8388607, bytes 0x80,0x00,0x00 decode to
-8388608, and bytes 0x00,0x00,0x01 decode to 1.  (With the device ready
at the entry poll, the 24 data bits are the samples at indices
idx+1 … idx+24, first sample = most significant bit.) -/
theorem spec_c1 (s : St) (fuel : Nat) (hfuel : 1 ≤ fuel) (hready : s.env s.idx = false) :
    (∃ s2, read fuel s = some (decode24 (raw24 s.env (s.idx + 1)), s2)) ∧
    (read 1 (initSt (envOfBytes 127 255 255))).map Prod.fst = some 8388607 ∧
    (read 1 (initSt (envOfBytes 128 0 0))).map Prod.fst = some (-8388608) ∧
    (read 1 (initSt (envOfBytes 0 0 1))).map Prod.fst = some 1 := by
  refine ⟨?_, by decide, by decide, by decide⟩
  have hw := @wait_ready_ready 0 fuel s hfuel hready
  obtain ⟨p, hp⟩ : ∃ p, read fuel s = some p := by
    unfold read
    rw [hw]
    exact ⟨_, rfl⟩
  obtain ⟨s0, hw2, hval, hrest⟩ := read_char hp
  rw [hw] at hw2
  have hs0 : s0 = { s with idx := s.idx + 1, trace := s.trace ++ [Ev.rDout false] } :=
    (Option.some.inj hw2).symm
  subst hs0
  refine ⟨p.2, ?_⟩
  rw [hp]
  have hv : p.1 = decode24 (raw24 s.env (s.idx + 1)) := hval
  rw [← hv]

/-- Witness for `spec_c1` at a concrete environment. -/
theorem spec_c1_witness :
    (read 1 (initSt (envOfBytes 127 255 255))).map Prod.fst = some 8388607 :=
  (spec_c1 (initSt (envOfBytes 127 255 255)) 1 (by norm_num) (by decide)).2.1

/-- C7: whenever `read()` completes (each data-line sample being 0 or 1 by
the digital-pin model), its value lies in the signed 24-bit range. -/
theorem spec_c7 (fuel : Nat) (s : St) (v : Int) (s2 : St)
    (h : read fuel s = some (v, s2)) :
    -8388608 ≤ v ∧ v ≤ 8388607 := by
  obtain ⟨s0, hw, hval, hrest⟩ := read_char h
  have hlt := raw24_lt s0.env s0.idx
  have hv : v = decode24 (raw24 s0.env s0.idx) := hval
  rw [hv]
  unfold decode24
  split <;> omega

/-- Witness for `spec_c7` at a concrete environment. -/
theorem spec_c7_witness :
    (read 1 (initSt envAllLow)).map
      (fun p => decide (-8388608 ≤ p.1 ∧ p.1 ≤ 8388607)) = some true := by
  cases hr : read 1 (initSt envAllLow) with
  | none =>
    have hs : (read 1 (initSt envAllLow)).isSome = true := by decide
    rw [hr] at hs
    simp at hs
  | some p =>
    have h := spec_c7 1 (initSt envAllLow) p.1 p.2 hr
    show some (decide _) = some true
    rw [decide_eq_true h]

/-- C8: `wait_ready_retry(k, d)` performs at most `k` readiness checks
(the read index advances by at most `k`), returns true exactly when some
check within the first `k` observes the line low, and with `k = 0`
returns false with no device interaction at all. -/
theorem spec_c8 (k : Nat) (d : ℚ) (s : St) :
    (wait_ready_retry k d s).2.idx ≤ s.idx + k ∧
    ((wait_ready_retry k d s).1 = true ↔ ∃ j, j < k ∧ s.env (s.idx + j) = false) ∧
    (k = 0 → wait_ready_retry k d s = (false, s)) := by
  induction k generalizing s with
  | zero =>
    refine ⟨by simp [wait_ready_retry], ?_, fun _ => rfl⟩
    simp [wait_ready_retry]
  | succ k ih =>
    cases hb : s.env s.idx
    · -- device ready at the first check
      have hred : wait_ready_retry (k + 1) d s = (true, (dReadDout s).2) := by
        simp only [wait_ready_retry, is_ready, dReadDout]
        rw [hb]
        rw [if_pos (by decide)]
      rw [hred]
      have hidx : ((true, (dReadDout s).2) : Bool × St).2.idx = s.idx + 1 := rfl
      refine ⟨by omega, ?_, fun hk => absurd hk (by omega)⟩
      constructor
      · intro _
        exact ⟨0, by omega, by simpa using hb⟩
      · intro _
        rfl
    · -- first check sees not-ready, loop recurses
      have hred : wait_ready_retry (k + 1) d s
          = wait_ready_retry k d (pause d (dReadDout s).2) := by
        simp only [wait_ready_retry, is_ready, dReadDout]
        rw [hb]
        rw [if_neg (by decide)]
      rw [hred]
      obtain ⟨hidx, hiff, _⟩ := ih (pause d (dReadDout s).2)
      have hidx2 : (pause d (dReadDout s).2).idx = s.idx + 1 := rfl
      have hiff2 : (wait_ready_retry k d (pause d (dReadDout s).2)).1 = true ↔
          ∃ j, j < k ∧ s.env (s.idx + 1 + j) = false := hiff
      refine ⟨by omega, ?_, fun hk => absurd hk (by omega)⟩
      rw [hiff2]
      constructor
      · rintro ⟨j, hj, hje⟩
        exact ⟨j + 1, by omega, by rw [show s.idx + (j + 1) = s.idx + 1 + j from by omega]; exact hje⟩
      · rintro ⟨j, hj, hje⟩
        cases j with
        | zero => exact absurd hje (by simp [hb])
        | succ j =>
          exact ⟨j, by omega, by rw [show s.idx + 1 + j = s.idx + (j + 1) from by omega]; exact hje⟩

/-- Witness for `spec_c8`: zero retries return false untouched. -/
theorem spec_c8_witness :
    wait_ready_retry 0 0 (initSt envAllLow) = (false, initSt envAllLow) :=
  (spec_c8 0 0 (initSt envAllLow)).2.2 rfl

/-! ### Clock-level bookkeeping for C10 -/

lemma filterMap_sckOf_poll {w : List Ev} (h : ∀ e ∈ w, isPoll e = true) :
    w.filterMap sckOf = [] := by
  rw [List.filterMap_eq_nil_iff]
  intro a ha
  have hp := h a ha
  cases a <;> first | rfl | exact absurd hp (by simp [isPoll])

lemma filterMap_sckOf_shiftTrace (bs : List Bool) :
    (shiftTrace bs).filterMap sckOf = (List.replicate bs.length [1, 0]).flatten := by
  induction bs with
  | nil => rfl
  | cons b bs ih =>
    rw [shiftTrace_cons, List.filterMap_append, ih]
    rfl

lemma filterMap_sckOf_gainPulses (g : Nat) :
    (gainPulses g).filterMap sckOf = (List.replicate g [1, 0]).flatten := by
  induction g with
  | zero => rfl
  | succ g ih =>
    rw [gainPulses_succ, List.filterMap_append, ih]
    rfl

lemma getLast?_flatten_replicate (n : Nat) (hn : n ≠ 0) :
    ((List.replicate n ([1, 0] : List Nat)).flatten).getLast? = some 0 := by
  induction n with
  | zero => omega
  | succ n ih =>
    rw [List.replicate_succ]
    show (([1, 0] : List Nat) ++ (List.replicate n [1, 0]).flatten).getLast? = some 0
    rw [List.getLast?_append]
    cases n with
    | zero => rfl
    | succ n => rw [ih (by omega)]; rfl

/-- C10: every completed `read()` leaves the clock line at logic-low:
among the events it appends, the last clock write has level 0, for every
entry state (hence every selector value, zero trailing pulses included). -/
theorem spec_c10 (fuel : Nat) (s : St) (v : Int) (s2 : St)
    (h : read fuel s = some (v, s2)) :
    ∃ t, s2.trace = s.trace ++ t ∧ lastSck t = some 0 := by
  obtain ⟨henv, hg, hoff, hsc, hrat, w, bs, hwp, hbs, htr⟩ := read_fields h
  refine ⟨w ++ (shiftTrace bs ++ gainPulses s.GAIN), htr, ?_⟩
  unfold lastSck
  rw [List.filterMap_append, List.filterMap_append]
  rw [filterMap_sckOf_poll hwp, filterMap_sckOf_shiftTrace, filterMap_sckOf_gainPulses]
  rw [List.nil_append, ← List.flatten_append, ← List.replicate_add]
  exact getLast?_flatten_replicate _ (by omega)

/-- Witness for `spec_c10` at a concrete environment. -/
theorem spec_c10_witness :
    (read 1 (initSt envAllLow)).map (fun p => lastSck p.2.trace) = some (some 0) := by
  cases hr : read 1 (initSt envAllLow) with
  | none =>
    have hs : (read 1 (initSt envAllLow)).isSome = true := by decide
    rw [hr] at hs
    simp at hs
  | some p =>
    obtain ⟨t, htr, hlast⟩ := spec_c10 1 (initSt envAllLow) p.1 p.2 hr
    show some (lastSck p.2.trace) = some (some 0)
    rw [htr]
    show some (lastSck (([] : List Ev) ++ t)) = some (some 0)
    rw [List.nil_append, hlast]

/-! ### The selector (GAIN) written by `set_gain` -/

lemma set_gain_gain {g : ℚ} {fuel : Nat} {s s1 : St} (h : set_gain g fuel s = some s1) :
    s1.GAIN = if g = 128 then 1 else if g = 64 then 3 else if g = 32 then 2 else s.GAIN := by
  simp only [set_gain] at h
  revert h
  cases hr : read fuel (dWriteSck 0 (if g = 128 then { s with GAIN := 1 }
      else if g = 64 then { s with GAIN := 3 }
      else if g = 32 then { s with GAIN := 2 } else s)) with
  | none => intro h; exact absurd h (by simp)
  | some r =>
    intro h
    have hr2 : r.2 = s1 := Option.some.inj h
    have hfields := read_fields hr
    rw [← hr2, hfields.2.1]
    by_cases hg1 : g = 128
    · rw [if_pos hg1, if_pos hg1]
      rfl
    · by_cases hg2 : g = 64
      · rw [if_neg hg1, if_neg hg1, if_pos hg2, if_pos hg2]
        rfl
      · by_cases hg3 : g = 32
        · rw [if_neg hg1, if_neg hg1, if_neg hg2, if_neg hg2, if_pos hg3, if_pos hg3]
          rfl
        · rw [if_neg hg1, if_neg hg1, if_neg hg2, if_neg hg2, if_neg hg3, if_neg hg3]
          rfl

/-- C2: after `set_gain` with selector 128, 64 or 32, every subsequent
`read()` issues exactly 1, 3 or 2 trailing clock pulses respectively,
immediately after the 24 data-bit groups; each pulse is clock-high,
hold, clock-low, hold (the shape of `pulseGroup`). -/
theorem spec_c2 (sel : ℚ) (cnt : Nat)
    (hsel : (sel = 128 ∧ cnt = 1) ∨ (sel = 64 ∧ cnt = 3) ∨ (sel = 32 ∧ cnt = 2))
    (fuel : Nat) (s s1 : St) (h1 : set_gain sel fuel s = some s1)
    (fuel2 : Nat) (v : Int) (s2 : St) (h2 : read fuel2 s1 = some (v, s2)) :
    s1.GAIN = cnt ∧ s2.GAIN = cnt ∧
    ∃ w bs, (∀ e ∈ w, isPoll e = true) ∧ bs.length = 24 ∧
      s2.trace = s1.trace ++ (w ++ (shiftTrace bs ++ gainPulses cnt)) := by
  have hg := set_gain_gain h1
  have h1gain : s1.GAIN = cnt := by
    rcases hsel with ⟨hs, hc⟩ | ⟨hs, hc⟩ | ⟨hs, hc⟩ <;> subst hs <;> subst hc <;>
      norm_num at hg <;> exact hg
  obtain ⟨henv, hgain2, hoff, hsc, hrat, w, bs, hwp, hbs, htr⟩ := read_fields h2
  refine ⟨h1gain, (show s2.GAIN = s1.GAIN from hgain2).trans h1gain, w, bs, hwp, hbs, ?_⟩
  rw [h1gain] at htr
  exact htr

/-- Witness for `spec_c2`: selector 64 yields three trailing pulses, seen
through the recorded GAIN. -/
theorem spec_c2_witness :
    ((set_gain 64 1 (initSt envAllLow)).bind fun s1 =>
      (read 1 s1).map fun p => p.2.GAIN) = some 3 := by
  have hp : (((set_gain 64 1 (initSt envAllLow)).bind fun s1 =>
      (read 1 s1).map fun p => p.2.GAIN)).isSome = true := by decide
  cases hsg : set_gain 64 1 (initSt envAllLow) with
  | none => rw [hsg] at hp; simp at hp
  | some s1 =>
    rw [hsg] at hp
    simp only [Option.some_bind] at hp ⊢
    cases hr : read 1 s1 with
    | none => rw [hr] at hp; simp at hp
    | some p =>
      have hc2 := (spec_c2 64 3 (Or.inr (Or.inl ⟨rfl, rfl⟩)) 1 (initSt envAllLow) s1 hsg
        1 p.1 p.2 hr).2.1
      show some (p.2.GAIN) = some 3
      rw [hc2]

/-! ### Preemption-control events (C3) -/

lemma isIrq_of_poll {e : Ev} (h : isPoll e = true) : isIrq e = false := by
  cases e <;> first | rfl | exact absurd h (by simp [isPoll])

lemma isIrq_shiftTrace {e : Ev} {bs : List Bool} (h : e ∈ shiftTrace bs) :
    isIrq e = false := by
  induction bs with
  | nil => simp [shiftTrace] at h
  | cons b bs ih =>
    rw [shiftTrace_cons] at h
    rcases List.mem_append.1 h with h1 | h2
    · simp only [bitGroup, List.mem_cons, List.mem_singleton] at h1
      rcases h1 with rfl | rfl | rfl | rfl | rfl | h1
      · rfl
      · rfl
      · rfl
      · rfl
      · rfl
      · simp at h1
    · exact ih h2

lemma isIrq_gainPulses {e : Ev} {g : Nat} (h : e ∈ gainPulses g) : isIrq e = false := by
  induction g with
  | zero => simp [gainPulses] at h
  | succ g ih =>
    rw [gainPulses_succ] at h
    rcases List.mem_append.1 h with h1 | h2
    · simp only [pulseGroup, List.mem_cons, List.mem_singleton] at h1
      rcases h1 with rfl | rfl | rfl | rfl | h1
      · rfl
      · rfl
      · rfl
      · rfl
      · simp at h1
    · exact ih h2

set_option maxRecDepth 4000 in
/-- C3 counterexample: at a concrete input, `read()` completes while its
I/O log contains no preemption-control event at all — so the claim that
every `read()` disables preemption for the shift-in and pulse train (and
restores it, which would put `irqOff`/`irqOn` events in the log) is
false on this code; the source comment itself says the critical section
is skipped. -/
theorem spec_c3_cex :
    (read 1 (initSt envAllLow)).map (fun p => p.2.trace.any isIrq) = some false := by
  decide

/-- C3 amended: every completed `read()` performs the whole readiness
poll, 24-bit shift-in and gain-pulse train without any preemption
control: the events it appends contain no `irqOff`/`irqOn`. -/
theorem spec_c3_amended (fuel : Nat) (s : St) (v : Int) (s2 : St)
    (h : read fuel s = some (v, s2)) :
    ∃ t, s2.trace = s.trace ++ t ∧ ∀ e ∈ t, isIrq e = false := by
  obtain ⟨henv, hg, hoff, hsc, hrat, w, bs, hwp, hbs, htr⟩ := read_fields h
  refine ⟨w ++ (shiftTrace bs ++ gainPulses s.GAIN), htr, ?_⟩
  intro e he
  rcases List.mem_append.1 he with h1 | h2
  · exact isIrq_of_poll (hwp e h1)
  · rcases List.mem_append.1 h2 with h3 | h4
    · exact isIrq_shiftTrace h3
    · exact isIrq_gainPulses h4

/-- Witness for `spec_c3_amended` at a concrete environment. -/
theorem spec_c3_amended_witness :
    (read 2 (initSt envAllLow)).map (fun p => p.2.trace.any isIrq) = some false := by
  cases hr : read 2 (initSt envAllLow) with
  | none =>
    have hs : (read 2 (initSt envAllLow)).isSome = true := by decide
    rw [hr] at hs
    simp at hs
  | some p =>
    obtain ⟨t, htr, hall⟩ := spec_c3_amended 2 (initSt envAllLow) p.1 p.2 hr
    show some (p.2.trace.any isIrq) = some false
    rw [htr]
    show some ((([] : List Ev) ++ t).any isIrq) = some false
    rw [List.nil_append]
    have : t.any isIrq = false := by
      rw [List.any_eq_false]
      intro e he
      rw [hall e he]
      exact Bool.false_ne_true
    rw [this]

/-! ### The averaging layer -/

lemma raLoop_spec (fuel : Nat) (t : Nat) :
    ∀ sum s, raLoop fuel t sum s
      = (readSeq fuel t s).map fun q => (sum + ((q.1.sum : Int) : ℚ), q.2) := by
  induction t with
  | zero =>
    intro sum s
    simp [raLoop, readSeq]
  | succ t ih =>
    intro sum s
    cases hr : read fuel s with
    | none => simp [raLoop, readSeq, hr]
    | some r =>
      simp only [raLoop, readSeq, hr]
      rw [ih]
      cases hq : readSeq fuel t (pause 0 r.2) with
      | none => simp
      | some q =>
        simp only [Option.map_some']
        have harith : sum + (r.1 : ℚ) + ((q.1.sum : Int) : ℚ)
            = sum + (((r.1 :: q.1).sum : Int) : ℚ) := by
          rw [List.sum_cons]
          push_cast
          ring
        rw [harith]

lemma readSeq_char (fuel t : Nat) :
    ∀ s q, readSeq fuel t s = some q →
      q.1.length = t ∧ q.2.GAIN = s.GAIN ∧ q.2.OFFSET = s.OFFSET ∧ q.2.SCALE = s.SCALE ∧
      St.CAL_RATIO q.2 = St.CAL_RATIO s ∧ q.2.env = s.env := by
  induction t with
  | zero =>
    intro s q h
    simp only [readSeq] at h
    have hq : ([], s) = q := Option.some.inj h
    rw [← hq]
    exact ⟨rfl, rfl, rfl, rfl, rfl, rfl⟩
  | succ t ih =>
    intro s q h
    cases hr : read fuel s with
    | none => rw [show readSeq fuel (t + 1) s = none from by simp [readSeq, hr]] at h; exact absurd h (by simp)
    | some r =>
      cases hq : readSeq fuel t (pause 0 r.2) with
      | none => rw [show readSeq fuel (t + 1) s = none from by simp [readSeq, hr, hq]] at h; exact absurd h (by simp)
      | some q2 =>
        rw [show readSeq fuel (t + 1) s = some (r.1 :: q2.1, q2.2) from by simp [readSeq, hr, hq]] at h
        have hq2 : (r.1 :: q2.1, q2.2) = q := Option.some.inj h
        obtain ⟨hlen, hg, hoff, hsc, hrat, henv⟩ := ih _ _ hq
        have hrf := read_fields hr
        rw [← hq2]
        refine ⟨by simp [hlen], ?_, ?_, ?_, ?_, ?_⟩
        · rw [show q2.2.GAIN = (pause 0 r.2).GAIN from hg]
          exact hrf.2.1
        · rw [show q2.2.OFFSET = (pause 0 r.2).OFFSET from hoff]
          exact hrf.2.2.1
        · rw [show q2.2.SCALE = (pause 0 r.2).SCALE from hsc]
          exact hrf.2.2.2.1
        · rw [show St.CAL_RATIO q2.2 = St.CAL_RATIO (pause 0 r.2) from hrat]
          exact hrf.2.2.2.2.1
        · rw [show q2.2.env = (pause 0 r.2).env from henv]
          exact hrf.1

lemma read_average_spec (times fuel : Nat) (s : St) :
    read_average times fuel s
      = (readSeq fuel times s).map fun q => (((q.1.sum : Int) : ℚ) / (times : ℚ), q.2) := by
  cases hq : readSeq fuel times s with
  | none => simp [read_average, raLoop_spec, hq]
  | some q => simp [read_average, raLoop_spec, hq]

lemma read_average_fields {times fuel : Nat} {s : St} {r : ℚ × St}
    (h : read_average times fuel s = some r) :
    r.2.GAIN = s.GAIN ∧ r.2.OFFSET = s.OFFSET ∧ r.2.SCALE = s.SCALE ∧
    St.CAL_RATIO r.2 = St.CAL_RATIO s ∧ r.2.env = s.env := by
  rw [read_average_spec] at h
  cases hq : readSeq fuel times s with
  | none => rw [hq] at h; exact absurd h (by simp)
  | some q =>
    rw [hq] at h
    simp only [Option.map_some'] at h
    obtain ⟨hlen, hg, hoff, hsc, hrat, henv⟩ := readSeq_char fuel times s q hq
    have hr : (((q.1.sum : Int) : ℚ) / (times : ℚ), q.2) = r := Option.some.inj h
    rw [← hr]
    exact ⟨hg, hoff, hsc, hrat, henv⟩

lemma get_value_eq (times fuel : Nat) (s : St) :
    get_value times fuel s
      = (read_average times fuel s).map fun r => (r.1 - St.OFFSET r.2, r.2) := by
  cases h : read_average times fuel s with
  | none => simp [get_value, h]
  | some r => simp [get_value, h]

lemma get_units_eq (times fuel : Nat) (s : St) :
    get_units times fuel s
      = (get_value times fuel s).map fun r => ((r.1 * St.CAL_RATIO r.2) / St.SCALE r.2, r.2) := by
  cases h : get_value times fuel s with
  | none => simp [get_units, h]
  | some r => simp [get_units, h]

lemma calibrate_eq (w : ℚ) (fuel : Nat) (s : St) :
    calibrate w fuel s
      = (get_value 10 fuel s).map fun r => { r.2 with CAL_RATIO := w / (r.1 / St.SCALE r.2) } := by
  cases h : get_value 10 fuel s with
  | none => simp [calibrate, h]
  | some r => simp [calibrate, h]

lemma tare_eq (times fuel : Nat) (s : St) :
    tare times fuel s
      = (read_average times fuel s).map fun r => set_offset r.1 r.2 := by
  cases h : read_average times fuel s with
  | none => simp [tare, h]
  | some r => simp [tare, h]

lemma get_value_fields {times fuel : Nat} {s : St} {r : ℚ × St}
    (h : get_value times fuel s = some r) :
    r.2.GAIN = s.GAIN ∧ r.2.OFFSET = s.OFFSET ∧ r.2.SCALE = s.SCALE ∧
    St.CAL_RATIO r.2 = St.CAL_RATIO s ∧ r.2.env = s.env := by
  rw [get_value_eq] at h
  cases hra : read_average times fuel s with
  | none => rw [hra] at h; exact absurd h (by simp)
  | some ra =>
    rw [hra] at h
    simp only [Option.map_some'] at h
    have hr : (ra.1 - St.OFFSET ra.2, ra.2) = r := Option.some.inj h
    rw [← hr]
    have hf := read_average_fields hra
    exact hf

/-- C4: for n ≥ 1, `read_average(n)` returns exactly the arithmetic mean
(rational division) of the n values produced by the n consecutive
`read()` calls it makes. -/
theorem spec_c4 (times fuel : Nat) (ht : 1 ≤ times) (s : St) (v : ℚ) (s2 : St)
    (h : read_average times fuel s = some (v, s2)) :
    ∃ l, readSeq fuel times s = some (l, s2) ∧ l.length = times ∧
      v = ((l.sum : Int) : ℚ) / (times : ℚ) := by
  rw [read_average_spec] at h
  cases hq : readSeq fuel times s with
  | none => rw [hq] at h; exact absurd h (by simp)
  | some q =>
    rw [hq] at h
    simp only [Option.map_some'] at h
    have hinj := Option.some.inj h
    have hv : ((q.1.sum : Int) : ℚ) / (times : ℚ) = v := congrArg Prod.fst hinj
    have hs : q.2 = s2 := congrArg Prod.snd hinj
    obtain ⟨hlen, hrest⟩ := readSeq_char fuel times s q hq
    refine ⟨q.1, ?_, hlen, hv.symm⟩
    exact congrArg some (Prod.ext rfl hs)

/-- Witness for `spec_c4` at a concrete environment. -/
theorem spec_c4_witness :
    (read_average 1 1 (initSt envAllLow)).map Prod.fst
      = (readSeq 1 1 (initSt envAllLow)).map (fun q => ((q.1.sum : Int) : ℚ) / (1 : ℚ)) := by
  cases hra : read_average 1 1 (initSt envAllLow) with
  | none =>
    have hs : (read_average 1 1 (initSt envAllLow)).isSome = true := by decide
    rw [hra] at hs
    simp at hs
  | some r =>
    obtain ⟨l, hseq, hlen, hv⟩ := spec_c4 1 1 (le_refl 1) (initSt envAllLow) r.1 r.2
      (show read_average 1 1 (initSt envAllLow) = some (r.1, r.2) from hra)
    rw [hseq]
    show some r.1 = some (((l.sum : Int) : ℚ) / (1 : ℚ))
    rw [hv]
    norm_num

/-- C5: for n ≥ 1, `get_value(n)` is `read_average(n)` minus the current
offset and `get_units(n)` is `(get_value(n) * CAL_RATIO) / SCALE`; both
leave OFFSET, SCALE and CAL_RATIO unchanged. -/
theorem spec_c5 (times fuel : Nat) (ht : 1 ≤ times) (s : St) :
    (∀ v s2, get_value times fuel s = some (v, s2) →
      (∃ ra, read_average times fuel s = some (ra, s2) ∧ v = ra - s.OFFSET) ∧
      s2.OFFSET = s.OFFSET ∧ s2.SCALE = s.SCALE ∧ St.CAL_RATIO s2 = St.CAL_RATIO s) ∧
    (∀ v s2, get_units times fuel s = some (v, s2) →
      (∃ gv, get_value times fuel s = some (gv, s2) ∧ v = (gv * St.CAL_RATIO s) / s.SCALE) ∧
      s2.OFFSET = s.OFFSET ∧ s2.SCALE = s.SCALE ∧ St.CAL_RATIO s2 = St.CAL_RATIO s) := by
  constructor
  · intro v s2 h
    have hfields := get_value_fields h
    rw [get_value_eq] at h
    cases hra : read_average times fuel s with
    | none => rw [hra] at h; exact absurd h (by simp)
    | some ra =>
      rw [hra] at h
      simp only [Option.map_some'] at h
      have hinj := Option.some.inj h
      have hra_fields := read_average_fields hra
      have hv : ra.1 - St.OFFSET ra.2 = v := congrArg Prod.fst hinj
      have hs2 : ra.2 = s2 := congrArg Prod.snd hinj
      refine ⟨⟨ra.1, ?_, ?_⟩, hfields.2.1, hfields.2.2.1, hfields.2.2.2.1⟩
      · rw [← hs2]
      · rw [← hv, hra_fields.2.1]
  · intro v s2 h
    rw [get_units_eq] at h
    cases hgv : get_value times fuel s with
    | none => rw [hgv] at h; exact absurd h (by simp)
    | some gv =>
      rw [hgv] at h
      simp only [Option.map_some'] at h
      have hinj := Option.some.inj h
      have hfields := get_value_fields hgv
      have hv : (gv.1 * St.CAL_RATIO gv.2) / St.SCALE gv.2 = v := congrArg Prod.fst hinj
      have hs2 : gv.2 = s2 := congrArg Prod.snd hinj
      refine ⟨⟨gv.1, ?_, ?_⟩, ?_, ?_, ?_⟩
      · rw [← hs2]
      · rw [← hv, hfields.2.2.2.1, hfields.2.2.1]
      · rw [← hs2]
        exact hfields.2.1
      · rw [← hs2]
        exact hfields.2.2.1
      · rw [← hs2]
        exact hfields.2.2.2.1

/-- Witness for `spec_c5` at a concrete environment. -/
theorem spec_c5_witness :
    (get_value 1 1 (initSt envAllLow)).map Prod.fst
      = (read_average 1 1 (initSt envAllLow)).map
          (fun r => r.1 - (initSt envAllLow).OFFSET) := by
  cases hgv : get_value 1 1 (initSt envAllLow) with
  | none =>
    have hs : (get_value 1 1 (initSt envAllLow)).isSome = true := by decide
    rw [hgv] at hs
    simp at hs
  | some r =>
    obtain ⟨⟨ra, hra, hv⟩, hrest⟩ := (spec_c5 1 1 (le_refl 1) (initSt envAllLow)).1 r.1 r.2
      (show get_value 1 1 (initSt envAllLow) = some (r.1, r.2) from hgv)
    rw [hra]
    show some r.1 = some (ra - (initSt envAllLow).OFFSET)
    rw [hv]

/-- C6: `calibrate(w)` sets CAL_RATIO to `w / (get_value(10) / SCALE)`
with the fixed sample count 10 and leaves OFFSET and SCALE unchanged;
it signals no error — it completes whenever its 10 reads complete, the
offsetted value being zero included. -/
theorem spec_c6 (w : ℚ) (fuel : Nat) (s : St) :
    (∀ s2, calibrate w fuel s = some s2 →
      (∃ gv s1, get_value 10 fuel s = some (gv, s1) ∧
        St.CAL_RATIO s2 = w / (gv / s.SCALE)) ∧
      s2.OFFSET = s.OFFSET ∧ s2.SCALE = s.SCALE) ∧
    (∀ gv s1, get_value 10 fuel s = some (gv, s1) → (calibrate w fuel s).isSome = true) := by
  constructor
  · intro s2 h
    rw [calibrate_eq] at h
    cases hgv : get_value 10 fuel s with
    | none => rw [hgv] at h; exact absurd h (by simp)
    | some r =>
      rw [hgv] at h
      simp only [Option.map_some'] at h
      have hinj := Option.some.inj h
      have hfields := get_value_fields hgv
      refine ⟨⟨r.1, r.2, rfl, ?_⟩, ?_, ?_⟩
      · rw [← hinj]
        show w / (r.1 / St.SCALE r.2) = w / (r.1 / s.SCALE)
        rw [hfields.2.2.1]
      · rw [← hinj]
        show r.2.OFFSET = s.OFFSET
        exact hfields.2.1
      · rw [← hinj]
        show r.2.SCALE = s.SCALE
        exact hfields.2.2.1
  · intro gv s1 h
    rw [calibrate_eq, h]
    rfl

set_option maxRecDepth 40000 in
/-- Witness for `spec_c6`: with the line always low every raw sample is
0, the offsetted value is 0, and `calibrate` still completes. -/
theorem spec_c6_witness : (calibrate 5 1 (initSt envAllLow)).isSome = true := by
  cases hgv : get_value 10 1 (initSt envAllLow) with
  | none =>
    have hs : (get_value 10 1 (initSt envAllLow)).isSome = true := by decide
    rw [hgv] at hs
    simp at hs
  | some r =>
    exact (spec_c6 5 1 (initSt envAllLow)).2 r.1 r.2
      (show get_value 10 1 (initSt envAllLow) = some (r.1, r.2) from hgv)

/-! ### GAIN preservation for the remaining operations (C9) -/

lemma wait_ready_retry_gain (k : Nat) (d : ℚ) :
    ∀ s, (wait_ready_retry k d s).2.GAIN = s.GAIN := by
  induction k with
  | zero => intro s; rfl
  | succ k ih =>
    intro s
    cases hb : s.env s.idx
    · have hred : wait_ready_retry (k + 1) d s = (true, (dReadDout s).2) := by
        simp only [wait_ready_retry, is_ready, dReadDout]
        rw [hb]
        rw [if_pos (by decide)]
      rw [hred]
      rfl
    · have hred : wait_ready_retry (k + 1) d s
          = wait_ready_retry k d (pause d (dReadDout s).2) := by
        simp only [wait_ready_retry, is_ready, dReadDout]
        rw [hb]
        rw [if_neg (by decide)]
      rw [hred, ih]
      rfl

lemma wrtLoop_gain (t d st : ℚ) (fuel : Nat) :
    ∀ s p, wrtLoop t d st fuel s = some p → p.2.GAIN = s.GAIN := by
  induction fuel with
  | zero => intro s p h; exact absurd h (by simp [wrtLoop])
  | succ fuel ih =>
    intro s p h
    by_cases hc : runningTime s - st < t
    · cases hb : s.env s.idx
      · have hred : wrtLoop t d st (fuel + 1) s = some (true, (dReadDout s).2) := by
          simp only [wrtLoop, is_ready, dReadDout]
          rw [hb, if_pos hc]
          rw [if_pos (by decide)]
        rw [hred] at h
        have hp := Option.some.inj h
        rw [← hp]
        rfl
      · have hred : wrtLoop t d st (fuel + 1) s
            = wrtLoop t d st fuel (pause d (dReadDout s).2) := by
          simp only [wrtLoop, is_ready, dReadDout]
          rw [hb, if_pos hc]
          rw [if_neg (by decide)]
        rw [hred] at h
        have hp := ih _ _ h
        rw [hp]
        rfl
    · have hred : wrtLoop t d st (fuel + 1) s = some (false, s) := by
        simp only [wrtLoop]
        rw [if_neg hc]
      rw [hred] at h
      have hp := Option.some.inj h
      rw [← hp]

/-- C9 counterexample: at module initialization (the concrete initial
state at any environment) the recorded pulse count is 0, which is none
of {1, 3, 2} — so "at every point in execution the recorded pulse count
is one of {1, 3, 2}" fails on the code. -/
theorem spec_c9_cex :
    (initSt envAllLow).GAIN ≠ 1 ∧ (initSt envAllLow).GAIN ≠ 3 ∧ (initSt envAllLow).GAIN ≠ 2 :=
  ⟨by decide, by decide, by decide⟩

/-- C9 amended: before initialization the pulse count is 0; `set_gain`
with 128/64/32 sets it to 1/3/2 and with any other argument leaves it
unchanged; `begin` sets it to 1; once the pulse count is in {1, 3, 2}
every `set_gain` keeps it there; and every other operation of the driver
preserves it, so exactly one selector is in effect between changes. -/
theorem spec_c9_amended :
    (∀ env, (initSt env).GAIN = 0) ∧
    (∀ g fuel s s1, set_gain g fuel s = some s1 →
      (g = 128 → s1.GAIN = 1) ∧ (g = 64 → s1.GAIN = 3) ∧ (g = 32 → s1.GAIN = 2) ∧
      (g ≠ 128 → g ≠ 64 → g ≠ 32 → s1.GAIN = s.GAIN)) ∧
    (∀ fuel s s1, begin fuel s = some s1 → s1.GAIN = 1) ∧
    (∀ g fuel s s1, set_gain g fuel s = some s1 →
      (s.GAIN = 1 ∨ s.GAIN = 2 ∨ s.GAIN = 3) → (s1.GAIN = 1 ∨ s1.GAIN = 2 ∨ s1.GAIN = 3)) ∧
    (∀ fuel s p, read fuel s = some p → p.2.GAIN = s.GAIN) ∧
    (∀ d fuel s s1, wait_ready d fuel s = some s1 → s1.GAIN = s.GAIN) ∧
    (∀ k d s, (wait_ready_retry k d s).2.GAIN = s.GAIN) ∧
    (∀ t d fuel s p, wait_ready_timeout t d fuel s = some p → p.2.GAIN = s.GAIN) ∧
    (∀ times fuel s p, read_average times fuel s = some p → p.2.GAIN = s.GAIN) ∧
    (∀ times fuel s p, get_value times fuel s = some p → p.2.GAIN = s.GAIN) ∧
    (∀ times fuel s p, get_units times fuel s = some p → p.2.GAIN = s.GAIN) ∧
    (∀ w fuel s s1, calibrate w fuel s = some s1 → s1.GAIN = s.GAIN) ∧
    (∀ times fuel s s1, tare times fuel s = some s1 → s1.GAIN = s.GAIN) ∧
    (∀ q s, (set_offset q s).GAIN = s.GAIN ∧ (set_scale q s).GAIN = s.GAIN) ∧
    (∀ s, (power_up s).GAIN = s.GAIN ∧ (power_down s).GAIN = s.GAIN ∧
      ((is_ready s).2).GAIN = s.GAIN ∧ ∀ b, ((shiftInSlow b s).2).GAIN = s.GAIN) := by
  refine ⟨fun env => rfl, ?_, ?_, ?_, ?_, ?_, wait_ready_retry_gain, ?_, ?_, ?_, ?_, ?_, ?_,
    fun q s => ⟨rfl, rfl⟩, fun s => ⟨rfl, rfl, rfl, fun b => shiftInSlow_gain b s⟩⟩
  · intro g fuel s s1 h
    have hg := set_gain_gain h
    refine ⟨fun h1 => ?_, fun h1 => ?_, fun h1 => ?_, fun n1 n2 n3 => ?_⟩
    · subst h1; rw [hg]; norm_num
    · subst h1; rw [hg]; norm_num
    · subst h1; rw [hg]; norm_num
    · rw [hg, if_neg n1, if_neg n2, if_neg n3]
  · intro fuel s s1 h
    have hg := set_gain_gain (show set_gain 128 fuel s = some s1 from h)
    rw [hg]
    norm_num
  · intro g fuel s s1 h hv
    have hg := set_gain_gain h
    rw [hg]
    split_ifs with h1 h2 h3
    · exact Or.inl rfl
    · exact Or.inr (Or.inr rfl)
    · exact Or.inr (Or.inl rfl)
    · exact hv
  · intro fuel s p h
    exact (read_fields h).2.1
  · intro d fuel s s1 h
    exact (wait_ready_char d fuel s s1 h).2.1
  · intro t d fuel s p h
    exact wrtLoop_gain t d (runningTime s) fuel s p h
  · intro times fuel s p h
    exact (read_average_fields h).1
  · intro times fuel s p h
    exact (get_value_fields h).1
  · intro times fuel s p h
    rw [get_units_eq] at h
    cases hgv : get_value times fuel s with
    | none => rw [hgv] at h; exact absurd h (by simp)
    | some r =>
      rw [hgv] at h
      simp only [Option.map_some'] at h
      have hp := Option.some.inj h
      rw [← hp]
      exact (get_value_fields hgv).1
  · intro w fuel s s1 h
    rw [calibrate_eq] at h
    cases hgv : get_value 10 fuel s with
    | none => rw [hgv] at h; exact absurd h (by simp)
    | some r =>
      rw [hgv] at h
      simp only [Option.map_some'] at h
      have hp := Option.some.inj h
      rw [← hp]
      exact (get_value_fields hgv).1
  · intro times fuel s s1 h
    rw [tare_eq] at h
    cases hra : read_average times fuel s with
    | none => rw [hra] at h; exact absurd h (by simp)
    | some r =>
      rw [hra] at h
      simp only [Option.map_some'] at h
      have hp := Option.some.inj h
      rw [← hp]
      exact (read_average_fields hra).1

/-- Witness for `spec_c9_amended`: `begin` establishes pulse count 1. -/
theorem spec_c9_witness :
    (begin 1 (initSt envAllLow)).map St.GAIN = some 1 := by
  cases hb : begin 1 (initSt envAllLow) with
  | none =>
    have hs : (begin 1 (initSt envAllLow)).isSome = true := by decide
    rw [hb] at hs
    simp at hs
  | some s1 =>
    have hg := spec_c9_amended.2.2.1 1 (initSt envAllLow) s1 hb
    show some (St.GAIN s1) = some 1
    rw [hg]

end HX711
